import Mathlib

/-!
Shallow embedding of the Modbus-TCP master in `src/modbus_poll.py` and proofs
about its codec: frame construction (`_build_packet_reading`,
`_build_packet_writing`), response decoding (`read_coils`,
`read_holding_registers` and their verbatim twins), the exception display
(`_error_display`) and the shared 16-bit conversion helpers
(`decimal_to_bytes`, `bytes_to_dec`).

Conventions of the embedding:
* Python integers are `Int`; received response bytes are `Nat` (elements of a
  Python `bytes` object are always in `0..255`, but the embedding does not
  assume this unless a theorem states it).
* `struct.pack("nB", ...)` raises `struct.error` unless every value fits an
  unsigned byte; packing is therefore `Option`-valued, `none` meaning the
  Python function raised and no packet was sent.
* Indexing a `bytes` object out of range raises `IndexError`; decoding is
  therefore `Option`-valued as well, `none` meaning an uncaught exception
  from an out-of-range buffer read (or a `struct`/`int()` error).
* Python `//` is floor division, embedded as `Int.fdiv`.
-/

set_option maxRecDepth 100000

/-- Modbus function codes, lines 9-16 of the source. -/
def READ_COILS : Int := 0x01

def READ_DISCRETE_INPUTS : Int := 0x02

def READ_HOLDING_REGISTERS : Int := 0x03

def READ_INPUT_REGISTERS : Int := 0x04

def WRITE_SINGLE_COIL : Int := 0x05

def WRITE_SINGLE_REGISTER : Int := 0x06

def WRITE_MULTIPLE_COILS : Int := 0x0F

def WRITE_MULTIPLE_REGISTERS : Int := 0x10

/-- Modbus exception code `ILLEGAL_FUNCTION` (line 19); exception codes are
compared against received response bytes, hence `Nat`. -/
def ILLEGAL_FUNCTION : Nat := 0x01

/-- Modbus exception code `ILLEGAL_DATA_ADDRESS` (line 20). -/
def ILLEGAL_DATA_ADDRESS : Nat := 0x02

/-- Modbus exception code `ILLEGAL_DATA_VALUE` (line 21). -/
def ILLEGAL_DATA_VALUE : Nat := 0x03

/-- Modbus exception code `SERVER_DEVICE_FAILURE` (line 22). -/
def SERVER_DEVICE_FAILURE : Nat := 0x04

/-- Function `decimal_to_bytes` (lines 26-29): big-endian split of a decimal
into two bytes, using Python floor division. -/
def decimal_to_bytes (num : Int) : Int × Int :=
  let byte_1 := Int.fdiv num (16 ^ 2)
  let byte_2 := num - byte_1 * 16 ^ 2
  (byte_1, byte_2)

/-- Function `bytes_to_dec` (lines 32-34): `byte[0] * 16 ** 2 + byte[1]`.
Result is `none` when fewer than two bytes are present, modelling the
`IndexError` Python would raise. -/
def bytes_to_dec (byte : List Nat) : Option Nat := do
  let b0 ← byte[0]?
  let b1 ← byte[1]?
  pure (b0 * 16 ^ 2 + b1)

/-- Model of `struct.pack("<n>B", ...)`: every value must fit an unsigned
byte, otherwise Python raises `struct.error` (modelled as `none`) and no
packet is produced. -/
def structPack (xs : List Int) : Option (List Nat) :=
  if ∀ x ∈ xs, 0 ≤ x ∧ x < 256 then some (xs.map Int.toNat) else none

/-- Method `_build_packet_reading` (lines 65-78), up to the `_send_packet`
call: the bytes handed to the transport, or `none` when `struct.pack`
raises.  Parameter order follows the source. -/
def build_packet_reading (address transaction_id function_code id count : Int) :
    Option (List Nat) :=
  let (trans_byte_1, trans_byte_2) := decimal_to_bytes transaction_id
  let (addr_byte_1, addr_byte_2) := decimal_to_bytes address
  let (count_byte_1, count_byte_2) := decimal_to_bytes count
  structPack [trans_byte_1, trans_byte_2, 0, 0, 0, 6, id, function_code,
    addr_byte_1, addr_byte_2, count_byte_1, count_byte_2]

/-- Python `str.ljust(n, c)`: pad on the right with `c` up to length `n`
(no-op when the string is already at least that long). -/
def ljust (s : List Char) (n : Nat) (c : Char) : List Char :=
  s ++ List.replicate (n - s.length) c

/-- Python `int(c)` on a single character: a decimal digit parses to its
value, any other character raises `ValueError` (`none`). -/
def charToDigit (c : Char) : Option Nat :=
  if c.isDigit then some (c.toNat - Char.toNat '0') else none

/-- One iteration of the outer bit-packing loop of `_build_packet_writing`
(lines 147-153): over `j in range(4)`, `byte_2` accumulates
`int(value[i + j]) * 2 ** j` and `byte_1` accumulates
`int(value[i + j + 4]) * 2 ** j`; the emitted byte is
`byte_1 * 16 + byte_2`. -/
def groupByte (value : List Char) (i : Nat) : Option Nat := do
  let p ← (List.range 4).foldlM (fun (p : Nat × Nat) j => do
      let d2 ← (value[i + j]?).bind charToDigit
      let d1 ← (value[i + j + 4]?).bind charToDigit
      pure (p.1 + d1 * 2 ^ j, p.2 + d2 * 2 ^ j)) (0, 0)
  pure (p.1 * 16 + p.2)

/-- The outer loop `for i in range(0, len(value), 8)` of the coil-packing
branch, one `groupByte` per index; its argument is the list of loop
indices. -/
def coilBytesLoop (value : List Char) : List Nat → Option (List Nat)
  | [] => some []
  | i :: rest => do
      let b ← groupByte value i
      let bs ← coilBytesLoop value rest
      pure (b :: bs)

/-- Data bytes produced by the coil-packing loop over a padded digit
string: `range(0, len(value), 8)` is the list `[0, 8, ...]` of
`ceil(len(value) / 8)` indices. -/
def coilDataBytes (value : List Char) : Option (List Nat) :=
  coilBytesLoop value ((List.range ((value.length + 7) / 8)).map (· * 8))

/-- Coil data bytes of a WriteMultipleCoils request (lines 144-153): the
values are joined into a decimal string (`''.join(map(str, values))`),
left-justified with '0' to `ceil(count / 8) * 8` characters, and packed
eight characters per byte. -/
def coilPackedBytes (values : List Int) : Option (List Nat) :=
  let count_byte := (values.length + 7) / 8
  coilDataBytes (ljust ((values.map fun v => (toString v).toList).flatten)
    (count_byte * 8) '0')

/-- Method `_build_packet_writing` (lines 80-155), up to `_send_packet`.
The `else` branch is reached for `WRITE_MULTIPLE_COILS` and any other
unlisted function code, exactly as in the source. -/
def build_packet_writing (address transaction_id function_code id : Int)
    (values : List Int) : Option (List Nat) :=
  let (trans_byte_1, trans_byte_2) := decimal_to_bytes transaction_id
  let (addr_byte_1, addr_byte_2) := decimal_to_bytes address
  if function_code = WRITE_SINGLE_REGISTER then do
    let v ← values[0]?
    let (data_byte_1, data_byte_2) :=
      decimal_to_bytes (if v > -1 then v else v + 65536)
    structPack [trans_byte_1, trans_byte_2, 0, 0, 0, 6, id, function_code,
      addr_byte_1, addr_byte_2, data_byte_1, data_byte_2]
  else if function_code = WRITE_MULTIPLE_REGISTERS then
    let count : Int := values.length
    let (count_byte_1, count_byte_2) := decimal_to_bytes count
    structPack ([trans_byte_1, trans_byte_2, 0, 0, 0, 7 + count * 2, id,
      function_code, addr_byte_1, addr_byte_2, count_byte_1, count_byte_2,
      count * 2] ++
      (values.map fun v =>
        let (data_byte_1, data_byte_2) :=
          decimal_to_bytes (if v > -1 then v else v + 65536)
        [data_byte_1, data_byte_2]).flatten)
  else if function_code = WRITE_SINGLE_COIL then do
    let v ← values[0]?
    structPack [trans_byte_1, trans_byte_2, 0, 0, 0, 6, id, function_code,
      addr_byte_1, addr_byte_2, v * 255, 0]
  else
    let count := values.length
    let (count_byte_1, count_byte_2) := decimal_to_bytes (count : Int)
    let count_byte := (count + 7) / 8
    do
      let data ← coilPackedBytes values
      structPack ([trans_byte_1, trans_byte_2, 0, 0, 0, 7 + (count_byte : Int),
        id, function_code, addr_byte_1, addr_byte_2, count_byte_1,
        count_byte_2, (count_byte : Int)] ++ data.map Int.ofNat)

/-- Outcome of a response-handling method: `exc` carries the message of the
`Exception` raised by `_error_display`, `bits` and `regs` the decoded values
the method prints.  The surrounding `Option` is `none` for an uncaught
`IndexError` from reading past the end of the response. -/
inductive PollResult where
  | exc (msg : String)
  | bits (values : List Nat)
  | regs (values : List Int)
deriving DecidableEq

/-- Method `_error_display` (lines 44-54): the message of the exception
raised for a peer-reported exception code. -/
def error_display (exception_code : Nat) : String :=
  if exception_code = ILLEGAL_FUNCTION then "Illegal function"
  else if exception_code = ILLEGAL_DATA_ADDRESS then "Illegal data address"
  else if exception_code = ILLEGAL_DATA_VALUE then "Illegal data value"
  else if exception_code = SERVER_DEVICE_FAILURE then "Server device failure"
  else "Unknown exception"

/-- Bits appended for one payload byte of a bit-space read response (lines
203-210): the binary string of the byte (`Nat.toDigits 2`, no leading
zeros), `zfill(8)` padding on the left, `[::-1]` reversal, and a 1 appended
per '1' character, 0 otherwise. -/
def byteBits (b : Nat) : List Nat :=
  ((List.replicate (8 - (Nat.toDigits 2 b).length) '0' ++
    Nat.toDigits 2 b).reverse).map fun c => if c = '1' then 1 else 0

/-- The loop `for i in range(byte_count)` of `read_coils` and
`read_discrete_inputs`: appends the bits of `response[9 + i]` for each
index; the second numeric argument counts remaining iterations. -/
def unpackLoop (response : List Nat) : Nat → Nat → Option (List Nat)
  | _, 0 => some []
  | i, k + 1 => do
      let b ← response[9 + i]?
      let rest ← unpackLoop response (i + 1) k
      pure (byteBits b ++ rest)

/-- The loop `for i in range(0, byte_count, 2)` of `read_holding_registers`
and `read_input_registers`: big-endian pair `response[9+i], response[9+i+1]`,
sign-extended when at least 32768; the second numeric argument counts
remaining iterations (`ceil(byte_count / 2)` at the call site). -/
def regLoop (response : List Nat) : Nat → Nat → Option (List Int)
  | _, 0 => some []
  | i, k + 1 => do
      let value_1 ← response[9 + i]?
      let value_2 ← response[9 + i + 1]?
      let value : Nat := value_1 * 16 ^ 2 + value_2
      let rest ← regLoop response (i + 2) k
      pure ((if value < 32768 then (value : Int) else (value : Int) - 65536)
        :: rest)

/-- The printing loop `for num, x in enumerate(xs)` with
`if num == count - 1: break`: emits the first `count` elements; when
`count = 0` the break condition never fires and every element is emitted. -/
def printLoop {α : Type} (xs : List α) (count : Nat) : List α :=
  if count = 0 then xs else xs.take count

/-- Response handling of `read_coils` (lines 187-215) after the request is
sent: exception check on `response[1] & 0x80`, header-field reads (which can
raise on a short response), the bit-unpacking loop over
`byte_count = response[8]` bytes, and the truncating print loop.
`read_discrete_inputs` (lines 157-185) is byte-for-byte identical. -/
def read_coils_decode (count : Nat) (response : List Nat) :
    Option PollResult := do
  let b ← response[1]?
  if b &&& 0x80 ≠ 0 then
    let code ← response[2]?
    pure (PollResult.exc (error_display code))
  else
    let _ ← bytes_to_dec (response.take 2)
    let _ ← bytes_to_dec ((response.drop 2).take 2)
    let _ ← bytes_to_dec ((response.drop 4).take 2)
    let _ ← response[6]?
    let _ ← response[7]?
    let byte_count ← response[8]?
    let coils ← unpackLoop response 0 byte_count
    pure (PollResult.bits (printLoop coils count))

/-- Response handling of `read_holding_registers` (lines 217-242) after the
request is sent; `read_input_registers` (lines 244-270) is byte-for-byte
identical. -/
def read_holding_registers_decode (count : Nat) (response : List Nat) :
    Option PollResult := do
  let b ← response[1]?
  if b &&& 0x80 ≠ 0 then
    let code ← response[2]?
    pure (PollResult.exc (error_display code))
  else
    let _ ← bytes_to_dec (response.take 2)
    let _ ← bytes_to_dec ((response.drop 2).take 2)
    let _ ← bytes_to_dec ((response.drop 4).take 2)
    let _ ← response[6]?
    let _ ← response[7]?
    let byte_count ← response[8]?
    let regs ← regLoop response 0 ((byte_count + 1) / 2)
    pure (PollResult.regs (printLoop regs count))

/-- Specification-side helper for WriteMultipleCoils packing: the claimed
bit value at index `k` of the coil sequence (indices beyond the sequence are
the zero padding). -/
def dBit (values : List Int) (k : Nat) : Nat :=
  if values.getD k 0 = 1 then 1 else 0

/-- Specification-side packing, written from the claim's words: the sequence
is padded on the right with zeros to a multiple of 8 and grouped into
`ceil(count / 8)` bytes where bit position `b` of byte `i` holds the value
at index `8 * i + b`. -/
def lsbPack (values : List Int) : List Nat :=
  (List.range ((values.length + 7) / 8)).map fun i =>
    ∑ b ∈ Finset.range 8, dBit values (8 * i + b) * 2 ^ b

/-- Helper: packing succeeds when every value fits a byte. -/
theorem structPack_of_bounds (xs : List Int)
    (h : ∀ x ∈ xs, 0 ≤ x ∧ x < 256) :
    structPack xs = some (xs.map Int.toNat) := by
  simp only [structPack, if_pos h]

/-- Helper: a successful pack means every value fit a byte and the packet is
the byte image of the values. -/
theorem structPack_inv {xs : List Int} {pkt : List Nat}
    (h : structPack xs = some pkt) :
    (∀ x ∈ xs, 0 ≤ x ∧ x < 256) ∧ pkt = xs.map Int.toNat := by
  unfold structPack at h
  split at h
  · exact ⟨by assumption, (Option.some_inj.mp h).symm⟩
  · exact absurd h (by simp)

/-- Helper: `decimal_to_bytes` on an in-range value is the big-endian byte
pair, and both components are bytes. -/
theorem decimal_to_bytes_bounds (n : Int) (h0 : 0 ≤ n) (h1 : n ≤ 65535) :
    decimal_to_bytes n = (n / 256, n % 256) ∧
    0 ≤ n / 256 ∧ n / 256 ≤ 255 ∧ 0 ≤ n % 256 ∧ n % 256 ≤ 255 := by
  have hf : Int.fdiv n 256 = n / 256 := Int.fdiv_eq_ediv n (by norm_num)
  refine ⟨?_, by omega, by omega, by omega, by omega⟩
  simp only [decimal_to_bytes]
  rw [show (16 : Int) ^ 2 = 256 from rfl, hf, Prod.mk.injEq]
  exact ⟨rfl, by omega⟩

/-- C10: for every integer `num` in `[0, 65535]`, `decimal_to_bytes num` is
the big-endian byte pair `(num div 256, num mod 256)` with both components
in `[0, 255]`, and `bytes_to_dec` applied to that pair recovers `num`
(round-trip identity of the shared 16-bit conversion helpers). -/
theorem c10_byte_conversion_round_trip (num : Int) (h0 : 0 ≤ num)
    (h1 : num ≤ 65535) :
    decimal_to_bytes num = (num / 256, num % 256) ∧
    0 ≤ num / 256 ∧ num / 256 ≤ 255 ∧ 0 ≤ num % 256 ∧ num % 256 ≤ 255 ∧
    bytes_to_dec [(num / 256).toNat, (num % 256).toNat] = some num.toNat := by
  obtain ⟨he, hb1, hb2, hb3, hb4⟩ := decimal_to_bytes_bounds num h0 h1
  refine ⟨he, hb1, hb2, hb3, hb4, ?_⟩
  show some ((num / 256).toNat * 16 ^ 2 + (num % 256).toNat) = some num.toNat
  rw [show (16 : Nat) ^ 2 = 256 from rfl]
  congr 1
  omega

/-- Witness for C10 at `num = 4660` (`0x1234`). -/
theorem c10_byte_conversion_round_trip_witness :
    (0 : Int) ≤ 4660 ∧ (4660 : Int) ≤ 65535 ∧
    (decimal_to_bytes 4660 = (4660 / 256, 4660 % 256) ∧
     0 ≤ (4660 : Int) / 256 ∧ (4660 : Int) / 256 ≤ 255 ∧
     0 ≤ (4660 : Int) % 256 ∧ (4660 : Int) % 256 ≤ 255 ∧
     bytes_to_dec [((4660 : Int) / 256).toNat, ((4660 : Int) % 256).toNat] =
       some (4660 : Int).toNat) :=
  ⟨by decide, by decide,
    c10_byte_conversion_round_trip 4660 (by decide) (by decide)⟩

/-- C2 counterexample: requesting 0 coils does not fail before any bytes are
produced — `_build_packet_reading` performs no count validation and builds
(and would send) a full 12-byte frame with count field `0x0000`. -/
theorem c2_counterexample_count_zero_encodes :
    build_packet_reading 0 1 READ_COILS 1 0 =
      some [0, 1, 0, 0, 0, 6, 1, 1, 0, 0, 0, 0] := by decide

/-- C2 amended: the encoder performs no count validation at all.  For every
address, transaction id and count in `[0, 65535]` (including counts 0, 2000
and 2001, bit- and register-space alike) `_build_packet_reading` succeeds
and produces a 12-byte frame with the count stored big-endian at offsets
10-11; no `InvalidArgument` failure exists in the code. -/
theorem c2_no_count_validation (address transaction_id function_code id
    count : Int) (ha0 : 0 ≤ address) (ha1 : address ≤ 65535)
    (ht0 : 0 ≤ transaction_id) (ht1 : transaction_id ≤ 65535)
    (hf0 : 0 ≤ function_code) (hf1 : function_code ≤ 255)
    (hi0 : 0 ≤ id) (hi1 : id ≤ 255)
    (hc0 : 0 ≤ count) (hc1 : count ≤ 65535) :
    ∃ pkt, build_packet_reading address transaction_id function_code id
        count = some pkt ∧ pkt.length = 12 ∧
      pkt.drop 10 = [(count / 256).toNat, (count % 256).toNat] := by
  obtain ⟨het, ht2, ht3, ht4, ht5⟩ :=
    decimal_to_bytes_bounds transaction_id ht0 ht1
  obtain ⟨hea, ha2, ha3, ha4, ha5⟩ := decimal_to_bytes_bounds address ha0 ha1
  obtain ⟨hec, hc2, hc3, hc4, hc5⟩ := decimal_to_bytes_bounds count hc0 hc1
  have hcond : ∀ x ∈ ([transaction_id / 256, transaction_id % 256, 0, 0, 0, 6,
      id, function_code, address / 256, address % 256, count / 256,
      count % 256] : List Int), 0 ≤ x ∧ x < 256 := by
    intro x hx
    simp only [List.mem_cons, List.not_mem_nil, or_false] at hx
    rcases hx with h | h | h | h | h | h | h | h | h | h | h | h <;>
      subst h <;> exact ⟨by omega, by omega⟩
  have hb : build_packet_reading address transaction_id function_code id count
      = some ([transaction_id / 256, transaction_id % 256, 0, 0, 0, 6, id,
        function_code, address / 256, address % 256, count / 256,
        count % 256].map Int.toNat) := by
    simp only [build_packet_reading, het, hea, hec]
    exact structPack_of_bounds _ hcond
  exact ⟨_, hb, rfl, rfl⟩

/-- Witness for C2's amended theorem at count 2001 (the boundary input named
by the original claim). -/
theorem c2_no_count_validation_witness :
    ∃ pkt, build_packet_reading 0 1 READ_COILS 1 2001 = some pkt ∧
      pkt.length = 12 ∧
      pkt.drop 10 = [((2001 : Int) / 256).toNat, ((2001 : Int) % 256).toNat] :=
  c2_no_count_validation 0 1 READ_COILS 1 2001 (by decide) (by decide)
    (by decide) (by decide) (by decide) (by decide) (by decide) (by decide)
    (by decide) (by decide)

/-- C1: the decoder does not inspect the function-code byte at offset 7 at
all.  A response whose byte at offset 7 is `0x83` and whose byte at offset 8
is `0x02` — but whose transaction-id low byte (offset 1) has a clear high
bit — is decoded as a normal response carrying the register value `0x1234`;
conversely a response with a perfectly normal function-code byte `0x03` at
offset 7 raises the Illegal-data-address exception merely because offset 1
is `0x81`: the code keys the exception check on `response[1] & 0x80` and
reads the exception code at `response[2]`. -/
theorem c1_exception_frame_decodes_to_register_value :
    read_holding_registers_decode 1
        [0, 1, 0, 0, 0, 5, 1, 0x83, 0x02, 0x12, 0x34] =
      some (PollResult.regs [4660]) ∧
    read_holding_registers_decode 1 [0, 0x81, 0x02, 0, 0, 0, 1, 0x03, 0x02] =
      some (PollResult.exc "Illegal data address") := by
  constructor <;> decide

/-- C5: a response whose declared byte-count (2) exceeds the payload bytes
actually present (0) makes `read_coils` perform an out-of-range buffer read
(`response[9]`, an uncaught `IndexError`, modelled as `none`); no
`MalformedResponse` signalling exists in the code. -/
theorem c5_truncated_response_out_of_range_read :
    read_coils_decode 2 [0, 1, 0, 0, 0, 4, 1, 1, 2] = none := by decide

/-- Helper: packing fails when some value does not fit a byte. -/
theorem structPack_none (xs : List Int)
    (h : ¬ ∀ x ∈ xs, 0 ≤ x ∧ x < 256) : structPack xs = none := by
  simp only [structPack, if_neg h]


/-- Helper: the WriteSingleCoil branch of `_build_packet_writing` is one
pack of the fixed 12-byte frame (definitional reduction of the branch). -/
theorem build_packet_writing_coil_eq (address transaction_id id w : Int) :
    build_packet_writing address transaction_id WRITE_SINGLE_COIL id [w] =
      structPack [(decimal_to_bytes transaction_id).1,
        (decimal_to_bytes transaction_id).2, 0, 0, 0, 6, id,
        WRITE_SINGLE_COIL, (decimal_to_bytes address).1,
        (decimal_to_bytes address).2, w * 255, 0] := rfl

/-- Helper: the WriteSingleRegister branch of `_build_packet_writing` is
one pack of the fixed 12-byte frame. -/
theorem build_packet_writing_single_reg_eq (address transaction_id id w :
    Int) :
    build_packet_writing address transaction_id WRITE_SINGLE_REGISTER id
        [w] =
      structPack [(decimal_to_bytes transaction_id).1,
        (decimal_to_bytes transaction_id).2, 0, 0, 0, 6, id,
        WRITE_SINGLE_REGISTER, (decimal_to_bytes address).1,
        (decimal_to_bytes address).2,
        (decimal_to_bytes (if w > -1 then w else w + 65536)).1,
        (decimal_to_bytes (if w > -1 then w else w + 65536)).2] := rfl

/-- Helper: the WriteMultipleRegisters branch of `_build_packet_writing` is
one pack of the variable-length frame. -/
theorem build_packet_writing_multi_reg_eq (address transaction_id id : Int)
    (values : List Int) :
    build_packet_writing address transaction_id WRITE_MULTIPLE_REGISTERS id
        values =
      structPack ([(decimal_to_bytes transaction_id).1,
        (decimal_to_bytes transaction_id).2, 0, 0, 0,
        7 + (values.length : Int) * 2, id, WRITE_MULTIPLE_REGISTERS,
        (decimal_to_bytes address).1, (decimal_to_bytes address).2,
        (decimal_to_bytes (values.length : Int)).1,
        (decimal_to_bytes (values.length : Int)).2,
        (values.length : Int) * 2] ++
        (values.map fun v =>
          [(decimal_to_bytes (if v > -1 then v else v + 65536)).1,
           (decimal_to_bytes (if v > -1 then v else v + 65536)).2]).flatten)
      := rfl

/-- C7: WriteSingleCoil encodes boolean true as the two payload bytes
0xFF 0x00 and false as 0x00 0x00 following the two big-endian address
bytes; any integer input other than 0 or 1 is rejected before encoding
(`values[0] * 255` does not fit a byte, so `struct.pack` raises and no
frame is produced).  For address 5 the four payload bytes are
0x00 0x05 0xFF 0x00 (true) and 0x00 0x05 0x00 0x00 (false). -/
theorem c7_write_single_coil_encoding (address transaction_id id v : Int)
    (ha0 : 0 ≤ address) (ha1 : address ≤ 65535)
    (ht0 : 0 ≤ transaction_id) (ht1 : transaction_id ≤ 65535)
    (hi0 : 0 ≤ id) (hi1 : id ≤ 255) :
    (v = 1 → ∃ pkt, build_packet_writing address transaction_id
        WRITE_SINGLE_COIL id [v] = some pkt ∧ pkt.length = 12 ∧
        pkt.drop 8 =
          [(address / 256).toNat, (address % 256).toNat, 0xFF, 0]) ∧
    (v = 0 → ∃ pkt, build_packet_writing address transaction_id
        WRITE_SINGLE_COIL id [v] = some pkt ∧ pkt.length = 12 ∧
        pkt.drop 8 = [(address / 256).toNat, (address % 256).toNat, 0, 0]) ∧
    (v ≠ 0 → v ≠ 1 → build_packet_writing address transaction_id
        WRITE_SINGLE_COIL id [v] = none) ∧
    ((build_packet_writing 5 1 WRITE_SINGLE_COIL 1 [1]).map
        fun pkt => pkt.drop 8) = some [0, 5, 0xFF, 0] ∧
    ((build_packet_writing 5 1 WRITE_SINGLE_COIL 1 [0]).map
        fun pkt => pkt.drop 8) = some [0, 5, 0, 0] ∧
    build_packet_writing 5 1 WRITE_SINGLE_COIL 1 [2] = none := by
  obtain ⟨het, ht2, ht3, ht4, ht5⟩ :=
    decimal_to_bytes_bounds transaction_id ht0 ht1
  obtain ⟨hea, ha2, ha3, ha4, ha5⟩ := decimal_to_bytes_bounds address ha0 ha1
  refine ⟨?_, ?_, ?_, by decide, by decide, by decide⟩
  · rintro rfl
    rw [build_packet_writing_coil_eq, het, hea]
    simp only [WRITE_SINGLE_COIL]
    rw [structPack_of_bounds]
    · exact ⟨_, rfl, rfl, rfl⟩
    · intro x hx
      simp only [List.mem_cons, List.not_mem_nil, or_false] at hx
      rcases hx with h | h | h | h | h | h | h | h | h | h | h | h <;>
        subst h <;> exact ⟨by omega, by omega⟩
  · rintro rfl
    rw [build_packet_writing_coil_eq, het, hea]
    simp only [WRITE_SINGLE_COIL]
    rw [structPack_of_bounds]
    · exact ⟨_, rfl, rfl, rfl⟩
    · intro x hx
      simp only [List.mem_cons, List.not_mem_nil, or_false] at hx
      rcases hx with h | h | h | h | h | h | h | h | h | h | h | h <;>
        subst h <;> exact ⟨by omega, by omega⟩
  · intro hv0 hv1
    rw [build_packet_writing_coil_eq, het, hea]
    simp only [WRITE_SINGLE_COIL]
    apply structPack_none
    intro hall
    have hb := hall (v * 255) (by simp)
    omega

/-- Helper: length of a flattened list of byte pairs. -/
theorem flatten_pairs_length {α β : Type} (l : List α) (f g : α → β) :
    ((l.map fun x => [f x, g x]).flatten).length = 2 * l.length := by
  induction l with
  | nil => rfl
  | cons a t ih =>
      simp only [List.map_cons, List.flatten_cons, List.length_append,
        List.length_cons, List.length_nil, ih]
      omega

/-- Helper: mapping `Int.toNat` over a flattened list of byte pairs. -/
theorem flatten_pairs_map {α : Type} (l : List α) (f g : α → Int) :
    List.map Int.toNat ((l.map fun x => [f x, g x]).flatten) =
      (l.map fun x => [(f x).toNat, (g x).toNat]).flatten := by
  induction l with
  | nil => rfl
  | cons a t ih =>
      simp only [List.map_cons, List.flatten_cons, List.map_append, ih]
      rfl

/-- C8: both register-writing paths wrap a value in `[-32768, 32767]` to the
unsigned range (adding 65536 to negatives, which is exactly `v mod 65536`
for in-range values) and store it as its 16-bit two's-complement big-endian
byte pair; in particular -1 encodes as bytes 0xFF 0xFF. -/
theorem c8_register_twos_complement (address transaction_id id v : Int)
    (vs : List Int)
    (ha0 : 0 ≤ address) (ha1 : address ≤ 65535)
    (ht0 : 0 ≤ transaction_id) (ht1 : transaction_id ≤ 65535)
    (hi0 : 0 ≤ id) (hi1 : id ≤ 255)
    (hv0 : -32768 ≤ v) (hv1 : v ≤ 32767)
    (hvs : ∀ w ∈ vs, -32768 ≤ w ∧ w ≤ 32767) (hlen : vs.length ≤ 124) :
    (∃ pkt, build_packet_writing address transaction_id
        WRITE_SINGLE_REGISTER id [v] = some pkt ∧ pkt.length = 12 ∧
        pkt.drop 10 =
          [((v % 65536) / 256).toNat, ((v % 65536) % 256).toNat]) ∧
    (∃ pkt, build_packet_writing address transaction_id
        WRITE_MULTIPLE_REGISTERS id vs = some pkt ∧
        pkt.length = 13 + 2 * vs.length ∧
        pkt.drop 13 = (vs.map fun w =>
          [((w % 65536) / 256).toNat, ((w % 65536) % 256).toNat]).flatten) ∧
    ((build_packet_writing 0 1 WRITE_SINGLE_REGISTER 1 [-1]).map
        fun pkt => pkt.drop 10) = some [0xFF, 0xFF] := by
  obtain ⟨het, ht2, ht3, ht4, ht5⟩ :=
    decimal_to_bytes_bounds transaction_id ht0 ht1
  obtain ⟨hea, ha2, ha3, ha4, ha5⟩ := decimal_to_bytes_bounds address ha0 ha1
  refine ⟨?_, ?_, by decide⟩
  · have hu : (if v > -1 then v else v + 65536) = v % 65536 := by
      split <;> omega
    obtain ⟨heu, hu2, hu3, hu4, hu5⟩ :=
      decimal_to_bytes_bounds (v % 65536) (by omega) (by omega)
    rw [build_packet_writing_single_reg_eq]
    simp only [het, hea, hu, heu, WRITE_SINGLE_REGISTER]
    rw [structPack_of_bounds]
    · exact ⟨_, rfl, rfl, rfl⟩
    · intro x hx
      simp only [List.mem_cons, List.not_mem_nil, or_false] at hx
      rcases hx with h | h | h | h | h | h | h | h | h | h | h | h <;>
        subst h <;> exact ⟨by omega, by omega⟩
  · have hmap : (vs.map fun w =>
        [(decimal_to_bytes (if w > -1 then w else w + 65536)).1,
         (decimal_to_bytes (if w > -1 then w else w + 65536)).2]) =
        vs.map fun w => [(w % 65536) / 256, (w % 65536) % 256] := by
      apply List.map_congr_left
      intro w hw
      obtain ⟨hw0, hw1⟩ := hvs w hw
      have hu : (if w > -1 then w else w + 65536) = w % 65536 := by
        split <;> omega
      obtain ⟨heu, -, -, -, -⟩ :=
        decimal_to_bytes_bounds (w % 65536) (by omega) (by omega)
      rw [hu, heu]
    obtain ⟨hec, hc2, hc3, hc4, hc5⟩ :=
      decimal_to_bytes_bounds (vs.length : Int) (by omega) (by omega)
    rw [build_packet_writing_multi_reg_eq]
    simp only [het, hea, hec, hmap, WRITE_MULTIPLE_REGISTERS]
    rw [structPack_of_bounds]
    · refine ⟨_, rfl, ?_, ?_⟩
      · simp only [List.length_map, List.length_append]
        rw [flatten_pairs_length]
        simp only [List.length_cons, List.length_nil]
      · show List.map Int.toNat ((vs.map fun w =>
          [(w % 65536) / 256, (w % 65536) % 256]).flatten) = _
        rw [flatten_pairs_map]
    · intro x hx
      rw [List.mem_append] at hx
      rcases hx with hx | hx
      · simp only [List.mem_cons, List.not_mem_nil, or_false] at hx
        rcases hx with h | h | h | h | h | h | h | h | h | h | h | h | h <;>
          subst h <;> exact ⟨by omega, by omega⟩
      · rw [List.mem_flatten] at hx
        obtain ⟨l, hl, hxl⟩ := hx
        rw [List.mem_map] at hl
        obtain ⟨w, hw, rfl⟩ := hl
        simp only [List.mem_cons, List.not_mem_nil, or_false] at hxl
        rcases hxl with h | h <;> subst h <;> exact ⟨by omega, by omega⟩

/-- Witness for C8 at address 0, transaction id 1, unit id 1, single value
-1 and value list [-1]. -/
theorem c8_register_twos_complement_witness :
    (∃ pkt, build_packet_writing 0 1 WRITE_SINGLE_REGISTER 1 [-1] =
        some pkt ∧ pkt.length = 12 ∧
        pkt.drop 10 = [(((-1 : Int) % 65536) / 256).toNat,
          (((-1 : Int) % 65536) % 256).toNat]) ∧
    (∃ pkt, build_packet_writing 0 1 WRITE_MULTIPLE_REGISTERS 1 [-1] =
        some pkt ∧ pkt.length = 13 + 2 * ([-1] : List Int).length ∧
        pkt.drop 13 = (([-1] : List Int).map fun w =>
          [((w % 65536) / 256).toNat, ((w % 65536) % 256).toNat]).flatten) ∧
    ((build_packet_writing 0 1 WRITE_SINGLE_REGISTER 1 [-1]).map
        fun pkt => pkt.drop 10) = some [0xFF, 0xFF] :=
  c8_register_twos_complement 0 1 1 (-1) [-1] (by decide) (by decide)
    (by decide) (by decide) (by decide) (by decide) (by decide) (by decide)
    (by decide) (by decide)

/-- Helper: the string form of a 0-or-1 value list is the corresponding
digit-character list. -/
theorem join_digits_01 (values : List Int)
    (h : ∀ v ∈ values, v = 0 ∨ v = 1) :
    (values.map fun v => (toString v).toList).flatten =
      values.map fun v => if v = 1 then '1' else '0' := by
  induction values with
  | nil => rfl
  | cons a t ih =>
      simp only [List.map_cons, List.flatten_cons]
      rw [ih (fun v hv => h v (List.mem_cons_of_mem a hv))]
      rcases h a (List.mem_cons_self a t) with rfl | rfl
      · rw [show (toString (0 : Int)).toList = ['0'] from by decide]
        rfl
      · rw [show (toString (1 : Int)).toList = ['1'] from by decide]
        rfl

/-- Helper: one packed byte over a digit string is the LSB-first weighted
sum of its eight digits. -/
theorem groupByte_eq (s : List Char) (dv : Nat → Nat) (i : Nat)
    (hs : ∀ j, j < 8 → (s[i + j]?).bind charToDigit = some (dv (i + j))) :
    groupByte s i = some (∑ b ∈ Finset.range 8, dv (i + b) * 2 ^ b) := by
  have hs0 : (s[i]?).bind charToDigit = some (dv i) := by
    have := hs 0 (by omega)
    simpa using this
  have h04 : i + 0 + 4 = i + 4 := by omega
  have h14 : i + 1 + 4 = i + 5 := by omega
  have h24 : i + 2 + 4 = i + 6 := by omega
  have h34 : i + 3 + 4 = i + 7 := by omega
  have r4 : List.range 4 = [0, 1, 2, 3] := rfl
  simp only [groupByte, r4, List.foldlM, h04, h14, h24, h34, Nat.add_zero]
  rw [hs0, hs 4 (by omega), hs 1 (by omega), hs 5 (by omega),
      hs 2 (by omega), hs 6 (by omega), hs 3 (by omega), hs 7 (by omega)]
  simp only [Option.some_bind, Option.pure_def]
  simp [Finset.sum_range_succ]
  ring

/-- Helper: the packing loop over a list of group indices, each group fully
inside the digit string. -/
theorem coilBytesLoop_eq (s : List Char) (dv : Nat → Nat)
    (hd : ∀ k, k < s.length → (s[k]?).bind charToDigit = some (dv k)) :
    ∀ idxs : List Nat, (∀ i ∈ idxs, i + 8 ≤ s.length) →
      coilBytesLoop s idxs = some (idxs.map fun i =>
        ∑ b ∈ Finset.range 8, dv (i + b) * 2 ^ b) := by
  intro idxs
  induction idxs with
  | nil => intro _; rfl
  | cons a t ih =>
      intro hmem
      have ha8 : a + 8 ≤ s.length := hmem a (List.mem_cons_self a t)
      have hga : groupByte s a =
          some (∑ b ∈ Finset.range 8, dv (a + b) * 2 ^ b) :=
        groupByte_eq s dv a (fun j hj => hd (a + j) (by omega))
      have hit := ih (fun i hi => hmem i (List.mem_cons_of_mem a hi))
      simp only [coilBytesLoop, hga, hit]
      rfl

/-- Helper: the packed data bytes of a 0-or-1 value list are exactly the
claim's LSB-first packing. -/
theorem coilPackedBytes_eq (values : List Int)
    (h01 : ∀ v ∈ values, v = 0 ∨ v = 1) :
    coilPackedBytes values = some (lsbPack values) := by
  have hjoin := join_digits_01 values h01
  have hmaplen : (values.map fun v =>
      if v = 1 then '1' else '0').length = values.length := List.length_map _ _
  have key : ∀ s : List Char,
      s = (values.map fun v => if v = 1 then '1' else '0') ++
        List.replicate ((values.length + 7) / 8 * 8 - values.length) '0' →
      coilDataBytes s = some (lsbPack values) := by
    intro s hs
    have hslen : s.length = (values.length + 7) / 8 * 8 := by
      subst hs
      simp only [List.length_append, List.length_replicate, hmaplen]
      omega
    have hd : ∀ k, k < s.length →
        (s[k]?).bind charToDigit = some (dBit values k) := by
      intro k hk
      rw [hslen] at hk
      by_cases hkn : k < values.length
      · have h1 : s[k]? = some (if values[k] = 1 then '1' else '0') := by
          subst hs
          rw [List.getElem?_append, if_pos (by rw [hmaplen]; exact hkn)]
          rw [List.getElem?_map, List.getElem?_eq_getElem hkn]
          rfl
        rw [h1]
        have hdb : dBit values k =
            if values[k] = 1 then 1 else 0 := by
          unfold dBit
          rw [List.getD_eq_getElem values 0 hkn]
        rw [hdb]
        rcases h01 values[k] (values.getElem_mem hkn) with h | h <;>
          rw [h] <;> rfl
      · have h1 : s[k]? = some '0' := by
          subst hs
          rw [List.getElem?_append_right (by rw [hmaplen]; omega)]
          rw [List.getElem?_replicate, if_pos (by rw [hmaplen]; omega)]
        rw [h1]
        have hdb : dBit values k = 0 := by
          unfold dBit
          rw [List.getD_eq_default _ _ (by omega)]
          rfl
        rw [hdb]
        rfl
    have hmem : ∀ i ∈ (List.range ((values.length + 7) / 8)).map (· * 8),
        i + 8 ≤ s.length := by
      intro i hi
      rw [List.mem_map] at hi
      obtain ⟨k, hk, rfl⟩ := hi
      rw [List.mem_range] at hk
      rw [hslen]
      omega
    have hloop := coilBytesLoop_eq s (dBit values) hd _ hmem
    unfold coilDataBytes
    rw [hslen, show ((values.length + 7) / 8 * 8 + 7) / 8 =
      (values.length + 7) / 8 from by omega]
    rw [hloop]
    congr 1
    rw [List.map_map]
    unfold lsbPack
    apply List.map_congr_left
    intro k hk
    exact Finset.sum_congr rfl fun b hb => by
      show dBit values (k * 8 + b) * 2 ^ b = dBit values (8 * k + b) * 2 ^ b
      rw [Nat.mul_comm k 8]
  show coilDataBytes _ = _
  apply key
  unfold ljust
  rw [hjoin, hmaplen]

/-- Helper: the WriteMultipleCoils branch of `_build_packet_writing` packs
the coil data bytes after the 13-byte header (definitional reduction of the
`else` branch). -/
theorem build_packet_writing_coils_eq (address transaction_id id : Int)
    (values : List Int) :
    build_packet_writing address transaction_id WRITE_MULTIPLE_COILS id
        values =
      (coilPackedBytes values).bind fun data =>
        structPack ([(decimal_to_bytes transaction_id).1,
          (decimal_to_bytes transaction_id).2, 0, 0, 0,
          7 + (((values.length + 7) / 8 : Nat) : Int), id,
          WRITE_MULTIPLE_COILS, (decimal_to_bytes address).1,
          (decimal_to_bytes address).2,
          (decimal_to_bytes (values.length : Int)).1,
          (decimal_to_bytes (values.length : Int)).2,
          (((values.length + 7) / 8 : Nat) : Int)] ++ data.map Int.ofNat)
      := rfl

/-- C3: for every non-empty 0-or-1 sequence, the WriteMultipleCoils packing
is exactly LSB-first: the joined digit string is padded on the right with
zeros to a multiple of 8 and grouped into `ceil(count / 8)` data bytes in
which bit position `b` of byte `i` holds the value at index `8 * i + b`
(`lsbPack`, written from the claim); in particular the sequence
`[1, 0, 1, 1, 0, 0, 0, 1, 1]` packs into exactly the two data bytes
0x8D, 0x01. -/
theorem c3_write_multiple_coils_lsb_packing (address transaction_id id :
    Int) (values : List Int) (hne : values ≠ [])
    (h01 : ∀ v ∈ values, v = 0 ∨ v = 1) :
    coilPackedBytes values = some (lsbPack values) ∧
    (lsbPack values).length = (values.length + 7) / 8 ∧
    (∀ pkt, build_packet_writing address transaction_id WRITE_MULTIPLE_COILS
        id values = some pkt → pkt.drop 13 = lsbPack values) ∧
    ((build_packet_writing 0 1 WRITE_MULTIPLE_COILS 1
        [1, 0, 1, 1, 0, 0, 0, 1, 1]).map fun pkt => pkt.drop 13) =
      some [0x8D, 0x01] := by
  have hpack := coilPackedBytes_eq values h01
  refine ⟨hpack, by simp [lsbPack], ?_, by decide⟩
  intro pkt h
  rw [build_packet_writing_coils_eq, hpack] at h
  simp only [Option.some_bind] at h
  obtain ⟨-, rfl⟩ := structPack_inv h
  show List.map Int.toNat (List.map Int.ofNat (lsbPack values)) =
    lsbPack values
  rw [List.map_map,
    show Int.toNat ∘ Int.ofNat = (fun x => x) from funext fun x => rfl,
    List.map_id']

/-- Witness for C3 at the claim's own sequence `[1,0,1,1,0,0,0,1,1]`. -/
theorem c3_write_multiple_coils_lsb_packing_witness :
    ([1, 0, 1, 1, 0, 0, 0, 1, 1] : List Int) ≠ [] ∧
    (∀ v ∈ ([1, 0, 1, 1, 0, 0, 0, 1, 1] : List Int), v = 0 ∨ v = 1) ∧
    (coilPackedBytes [1, 0, 1, 1, 0, 0, 0, 1, 1] =
        some (lsbPack [1, 0, 1, 1, 0, 0, 0, 1, 1]) ∧
      (lsbPack [1, 0, 1, 1, 0, 0, 0, 1, 1]).length =
        (([1, 0, 1, 1, 0, 0, 0, 1, 1] : List Int).length + 7) / 8 ∧
      (∀ pkt, build_packet_writing 0 1 WRITE_MULTIPLE_COILS 1
          [1, 0, 1, 1, 0, 0, 0, 1, 1] = some pkt →
        pkt.drop 13 = lsbPack [1, 0, 1, 1, 0, 0, 0, 1, 1]) ∧
      ((build_packet_writing 0 1 WRITE_MULTIPLE_COILS 1
          [1, 0, 1, 1, 0, 0, 0, 1, 1]).map fun pkt => pkt.drop 13) =
        some [0x8D, 0x01]) :=
  ⟨by decide, by decide,
    c3_write_multiple_coils_lsb_packing 0 1 1 [1, 0, 1, 1, 0, 0, 0, 1, 1]
      (by decide) (by decide)⟩

/-- Helper: `_build_packet_reading` is one pack of the fixed 12-byte frame
(definitional reduction). -/
theorem build_packet_reading_eq (address transaction_id function_code id
    count : Int) :
    build_packet_reading address transaction_id function_code id count =
      structPack [(decimal_to_bytes transaction_id).1,
        (decimal_to_bytes transaction_id).2, 0, 0, 0, 6, id, function_code,
        (decimal_to_bytes address).1, (decimal_to_bytes address).2,
        (decimal_to_bytes count).1, (decimal_to_bytes count).2] := rfl

/-- Helper: the WriteSingleCoil branch on a non-empty value list. -/
theorem build_packet_writing_coil_cons_eq (address transaction_id id v :
    Int) (rest : List Int) :
    build_packet_writing address transaction_id WRITE_SINGLE_COIL id
        (v :: rest) =
      structPack [(decimal_to_bytes transaction_id).1,
        (decimal_to_bytes transaction_id).2, 0, 0, 0, 6, id,
        WRITE_SINGLE_COIL, (decimal_to_bytes address).1,
        (decimal_to_bytes address).2, v * 255, 0] := by
  simp only [build_packet_writing, List.getElem?_cons_zero]
  rfl

/-- Helper: the WriteSingleCoil branch on an empty value list raises
`IndexError` on `values[0]`. -/
theorem build_packet_writing_coil_nil_eq (address transaction_id id : Int) :
    build_packet_writing address transaction_id WRITE_SINGLE_COIL id [] =
      none := rfl

/-- Helper: the WriteSingleRegister branch on a non-empty value list. -/
theorem build_packet_writing_single_reg_cons_eq (address transaction_id id
    v : Int) (rest : List Int) :
    build_packet_writing address transaction_id WRITE_SINGLE_REGISTER id
        (v :: rest) =
      structPack [(decimal_to_bytes transaction_id).1,
        (decimal_to_bytes transaction_id).2, 0, 0, 0, 6, id,
        WRITE_SINGLE_REGISTER, (decimal_to_bytes address).1,
        (decimal_to_bytes address).2,
        (decimal_to_bytes (if v > -1 then v else v + 65536)).1,
        (decimal_to_bytes (if v > -1 then v else v + 65536)).2] := by
  simp only [build_packet_writing, List.getElem?_cons_zero]
  rfl

/-- Helper: the WriteSingleRegister branch on an empty value list raises
`IndexError` on `values[0]`. -/
theorem build_packet_writing_single_reg_nil_eq (address transaction_id id :
    Int) :
    build_packet_writing address transaction_id WRITE_SINGLE_REGISTER id []
      = none := rfl

/-- Helper: the declared length field of a packed frame, read back the way
the source reads it (`bytes_to_dec(response[4:6])`). -/
theorem bytes_to_dec_drop4 (x0 x1 x2 x3 x4 x5 : Int) (xs : List Int) :
    bytes_to_dec ((((x0 :: x1 :: x2 :: x3 :: x4 :: x5 :: xs).map
      Int.toNat).drop 4).take 2) = some (x4.toNat * 16 ^ 2 + x5.toNat) := rfl

/-- C9: in every frame the encoder produces — the four read requests,
WriteSingleCoil, WriteSingleRegister, WriteMultipleRegisters and
WriteMultipleCoils on 0-or-1 values — the declared MBAP length field
(bytes 4-5, big-endian) equals exactly the number of bytes that follow it:
6 for read requests and both single writes, `7 + 2 * count` for
WriteMultipleRegisters, `7 + ceil(count / 8)` for WriteMultipleCoils. -/
theorem c9_length_field_invariant (address transaction_id function_code id
    : Int) (count : Int) (values : List Int) (pkt : List Nat) :
    (build_packet_reading address transaction_id function_code id count =
        some pkt →
      bytes_to_dec ((pkt.drop 4).take 2) = some (pkt.length - 6) ∧
      pkt.length - 6 = 6) ∧
    ((function_code = WRITE_SINGLE_COIL ∨
        function_code = WRITE_SINGLE_REGISTER) →
      build_packet_writing address transaction_id function_code id values =
        some pkt →
      bytes_to_dec ((pkt.drop 4).take 2) = some (pkt.length - 6) ∧
      pkt.length - 6 = 6) ∧
    (build_packet_writing address transaction_id WRITE_MULTIPLE_REGISTERS
        id values = some pkt →
      bytes_to_dec ((pkt.drop 4).take 2) = some (pkt.length - 6) ∧
      pkt.length - 6 = 7 + 2 * values.length) ∧
    ((∀ v ∈ values, v = 0 ∨ v = 1) →
      build_packet_writing address transaction_id WRITE_MULTIPLE_COILS id
        values = some pkt →
      bytes_to_dec ((pkt.drop 4).take 2) = some (pkt.length - 6) ∧
      pkt.length - 6 = 7 + (values.length + 7) / 8) := by
  refine ⟨?_, ?_, ?_, ?_⟩
  · intro h
    rw [build_packet_reading_eq] at h
    obtain ⟨-, rfl⟩ := structPack_inv h
    exact ⟨rfl, rfl⟩
  · rintro (rfl | rfl) h
    · cases values with
      | nil =>
          rw [build_packet_writing_coil_nil_eq] at h
          exact Option.noConfusion h
      | cons v rest =>
          rw [build_packet_writing_coil_cons_eq] at h
          obtain ⟨-, rfl⟩ := structPack_inv h
          rw [bytes_to_dec_drop4]
          exact ⟨rfl, rfl⟩
    · cases values with
      | nil =>
          rw [build_packet_writing_single_reg_nil_eq] at h
          exact Option.noConfusion h
      | cons v rest =>
          rw [build_packet_writing_single_reg_cons_eq] at h
          obtain ⟨-, rfl⟩ := structPack_inv h
          rw [bytes_to_dec_drop4]
          exact ⟨rfl, rfl⟩
  · intro h
    rw [build_packet_writing_multi_reg_eq] at h
    obtain ⟨hcond, rfl⟩ := structPack_inv h
    have hb := hcond (7 + (values.length : Int) * 2) (by simp)
    simp only [List.cons_append, List.nil_append]
    rw [bytes_to_dec_drop4]
    constructor
    · congr 1
      simp only [List.length_map, List.length_cons]
      rw [flatten_pairs_length]
      omega
    · simp only [List.length_map, List.length_cons]
      rw [flatten_pairs_length]
      omega
  · intro h01 h
    rw [build_packet_writing_coils_eq, coilPackedBytes_eq values h01] at h
    simp only [Option.some_bind] at h
    obtain ⟨hcond, rfl⟩ := structPack_inv h
    have hb := hcond (7 + (((values.length + 7) / 8 : Nat) : Int)) (by simp)
    have hlp : (List.map Int.ofNat (lsbPack values)).length =
        (values.length + 7) / 8 := by
      simp [lsbPack]
    simp only [List.cons_append, List.nil_append]
    rw [bytes_to_dec_drop4]
    constructor
    · congr 1
      simp only [List.length_map, List.length_cons]
      rw [show (lsbPack values).length = (values.length + 7) / 8 from by
        simp [lsbPack]]
      omega
    · simp only [List.length_map, List.length_cons]
      rw [show (lsbPack values).length = (values.length + 7) / 8 from by
        simp [lsbPack]]
      omega

/-- Witness for C9 at a frame of each kind: a ReadCoils request, a
WriteSingleCoil, a WriteMultipleRegisters of two values and a
WriteMultipleCoils of nine coils. -/
theorem c9_length_field_invariant_witness :
    (build_packet_reading 7 1 READ_COILS 1 9 =
        some [0, 1, 0, 0, 0, 6, 1, 1, 0, 7, 0, 9] →
      bytes_to_dec ((([0, 1, 0, 0, 0, 6, 1, 1, 0, 7, 0, 9] :
          List Nat).drop 4).take 2) =
        some (([0, 1, 0, 0, 0, 6, 1, 1, 0, 7, 0, 9] :
          List Nat).length - 6) ∧
      ([0, 1, 0, 0, 0, 6, 1, 1, 0, 7, 0, 9] : List Nat).length - 6 = 6) ∧
    ((READ_COILS = WRITE_SINGLE_COIL ∨ READ_COILS = WRITE_SINGLE_REGISTER) →
      build_packet_writing 7 1 READ_COILS 1 [1, 0] =
        some [0, 1, 0, 0, 0, 6, 1, 1, 0, 7, 0, 9] →
      bytes_to_dec ((([0, 1, 0, 0, 0, 6, 1, 1, 0, 7, 0, 9] :
          List Nat).drop 4).take 2) =
        some (([0, 1, 0, 0, 0, 6, 1, 1, 0, 7, 0, 9] :
          List Nat).length - 6) ∧
      ([0, 1, 0, 0, 0, 6, 1, 1, 0, 7, 0, 9] : List Nat).length - 6 = 6) ∧
    (build_packet_writing 7 1 WRITE_MULTIPLE_REGISTERS 1 [1, 0] =
        some [0, 1, 0, 0, 0, 6, 1, 1, 0, 7, 0, 9] →
      bytes_to_dec ((([0, 1, 0, 0, 0, 6, 1, 1, 0, 7, 0, 9] :
          List Nat).drop 4).take 2) =
        some (([0, 1, 0, 0, 0, 6, 1, 1, 0, 7, 0, 9] :
          List Nat).length - 6) ∧
      ([0, 1, 0, 0, 0, 6, 1, 1, 0, 7, 0, 9] : List Nat).length - 6 =
        7 + 2 * ([1, 0] : List Int).length) ∧
    ((∀ v ∈ ([1, 0] : List Int), v = 0 ∨ v = 1) →
      build_packet_writing 7 1 WRITE_MULTIPLE_COILS 1 [1, 0] =
        some [0, 1, 0, 0, 0, 6, 1, 1, 0, 7, 0, 9] →
      bytes_to_dec ((([0, 1, 0, 0, 0, 6, 1, 1, 0, 7, 0, 9] :
          List Nat).drop 4).take 2) =
        some (([0, 1, 0, 0, 0, 6, 1, 1, 0, 7, 0, 9] :
          List Nat).length - 6) ∧
      ([0, 1, 0, 0, 0, 6, 1, 1, 0, 7, 0, 9] : List Nat).length - 6 =
        7 + (([1, 0] : List Int).length + 7) / 8) :=
  c9_length_field_invariant 7 1 READ_COILS 1 9 [1, 0]
    [0, 1, 0, 0, 0, 6, 1, 1, 0, 7, 0, 9]

/-- Helper: the truncating print loop over a list of exactly the requested
length emits the whole list. -/
theorem printLoop_self {α : Type} (xs : List α) :
    printLoop xs xs.length = xs := by
  unfold printLoop
  split
  · rfl
  · exact List.take_length xs

/-- Helper: unfolding of the register-read response handling on a response
whose nine header bytes are explicit and whose offset-1 byte has a clear
high bit. -/
theorem decode_regs_unfold (count : Nat) (r0 r1 r2 r3 r4 r5 r6 r7 bc : Nat)
    (h1 : r1 &&& 0x80 = 0) (tail : List Nat) :
    read_holding_registers_decode count
        (r0 :: r1 :: r2 :: r3 :: r4 :: r5 :: r6 :: r7 :: bc :: tail) =
      (regLoop (r0 :: r1 :: r2 :: r3 :: r4 :: r5 :: r6 :: r7 :: bc :: tail)
          0 ((bc + 1) / 2)).bind
        fun regs => some (PollResult.regs (printLoop regs count)) := by
  simp only [read_holding_registers_decode, List.getElem?_cons_zero,
    List.getElem?_cons_succ, Option.bind_eq_bind, Option.some_bind]
  rw [if_neg (by simp [h1])]
  simp only [bytes_to_dec, List.take_succ_cons, List.take_zero,
    List.drop_succ_cons, List.drop_zero, List.getElem?_cons_zero,
    List.getElem?_cons_succ, Option.bind_eq_bind, Option.some_bind,
    Option.pure_def]

/-- Helper: the register loop over a response whose payload is a flattened
list of byte pairs, reading from just past a 9-byte header and an
already-consumed block `pre`. -/
theorem regLoop_pairs (hdr : List Nat) (hh : hdr.length = 9) :
    ∀ (ps : List (Nat × Nat)) (pre : List Nat),
      regLoop ((hdr ++ pre) ++ (ps.map fun p => [p.1, p.2]).flatten)
        pre.length ps.length =
      some (ps.map fun p =>
        if p.1 * 16 ^ 2 + p.2 < 32768 then ((p.1 * 16 ^ 2 + p.2 : Nat) : Int)
        else ((p.1 * 16 ^ 2 + p.2 : Nat) : Int) - 65536) := by
  intro ps
  induction ps with
  | nil => intro pre; rfl
  | cons p t ih =>
      intro pre
      have hlen : (hdr ++ pre).length = 9 + pre.length := by
        simp [List.length_append, hh]
      have h1 : ((hdr ++ pre) ++
          ((p :: t).map fun q => [q.1, q.2]).flatten)[9 + pre.length]? =
          some p.1 := by
        rw [List.getElem?_append_right (by omega)]
        simp [hlen]
      have h2 : ((hdr ++ pre) ++
          ((p :: t).map fun q => [q.1, q.2]).flatten)[9 + pre.length + 1]? =
          some p.2 := by
        rw [List.getElem?_append_right (by omega)]
        simp [hlen]
      have hstep : (hdr ++ pre) ++ ((p :: t).map fun q => [q.1, q.2]).flatten
          = (hdr ++ (pre ++ [p.1, p.2])) ++
            (t.map fun q => [q.1, q.2]).flatten := by
        simp [List.append_assoc]
      have hres := ih (pre ++ [p.1, p.2])
      rw [← hstep] at hres
      rw [show (pre ++ [p.1, p.2]).length = pre.length + 2 from by simp]
        at hres
      show regLoop _ pre.length (t.length + 1) = _
      simp only [regLoop]
      rw [h1, h2, hres]
      rfl

/-- C4: the register-space read decoder consumes the payload two bytes at a
time, interprets each pair big-endian as an unsigned 16-bit value and
sign-extends values of at least 32768 by subtracting 65536; in particular
the byte pair 0xFF 0xFF decodes to -1, 0x80 0x00 to -32768, and 0x7F 0xFF
to 32767. -/
theorem c4_register_sign_extension (pairs : List (Nat × Nat)) :
    read_holding_registers_decode pairs.length
        (0 :: 0 :: 0 :: 0 :: 0 :: 0 :: 1 :: 3 :: (2 * pairs.length) ::
          (pairs.map fun p => [p.1, p.2]).flatten) =
      some (PollResult.regs (pairs.map fun p =>
        if p.1 * 16 ^ 2 + p.2 < 32768
        then ((p.1 * 16 ^ 2 + p.2 : Nat) : Int)
        else ((p.1 * 16 ^ 2 + p.2 : Nat) : Int) - 65536)) ∧
    read_holding_registers_decode 1
        [0, 0, 0, 0, 0, 5, 1, 3, 2, 0xFF, 0xFF] =
      some (PollResult.regs [-1]) ∧
    read_holding_registers_decode 1
        [0, 0, 0, 0, 0, 5, 1, 3, 2, 0x80, 0x00] =
      some (PollResult.regs [-32768]) ∧
    read_holding_registers_decode 1
        [0, 0, 0, 0, 0, 5, 1, 3, 2, 0x7F, 0xFF] =
      some (PollResult.regs [32767]) := by
  refine ⟨?_, by decide, by decide, by decide⟩
  rw [decode_regs_unfold pairs.length 0 0 0 0 0 0 1 3 (2 * pairs.length)
    (by decide)]
  have hloop := regLoop_pairs [0, 0, 0, 0, 0, 0, 1, 3, 2 * pairs.length]
    rfl pairs []
  rw [List.append_nil] at hloop
  simp only [List.cons_append, List.nil_append, List.length_nil] at hloop
  rw [show (2 * pairs.length + 1) / 2 = pairs.length from by omega, hloop]
  simp only [Option.some_bind]
  rw [show pairs.length = (pairs.map fun p =>
    if p.1 * 16 ^ 2 + p.2 < 32768 then ((p.1 * 16 ^ 2 + p.2 : Nat) : Int)
    else ((p.1 * 16 ^ 2 + p.2 : Nat) : Int) - 65536).length from
    (List.length_map _ _).symm]
  rw [printLoop_self]

/-- Helper: on an actual byte (below 256) the decoder's
binary-string-reverse unpacking is exactly LSB-first bit extraction. -/
theorem byteBits_lt : ∀ b < 256, byteBits b =
    (List.range 8).map fun j => if b.testBit j then 1 else 0 := by decide

/-- Helper: a byte below 256 unpacks into exactly eight bits. -/
theorem byteBits_length (b : Nat) (hb : b < 256) :
    (byteBits b).length = 8 := by
  rw [byteBits_lt b hb]
  simp

/-- Helper: total number of unpacked candidate bits. -/
theorem flatten_byteBits_length (bs : List Nat) (hb : ∀ b ∈ bs, b < 256) :
    ((bs.map byteBits).flatten).length = 8 * bs.length := by
  induction bs with
  | nil => rfl
  | cons b t ih =>
      simp only [List.map_cons, List.flatten_cons, List.length_append]
      rw [byteBits_length b (hb b (List.mem_cons_self b t)),
        ih (fun x hx => hb x (List.mem_cons_of_mem b hx))]
      simp only [List.length_cons]
      omega

/-- Helper: candidate bit `i` of the unpacked sequence is bit `i mod 8` of
payload byte `i div 8`. -/
theorem flatten_byteBits_getElem (bs : List Nat)
    (hb : ∀ b ∈ bs, b < 256) :
    ∀ i, i < 8 * bs.length →
      ((bs.map byteBits).flatten)[i]? =
        some (if (bs.getD (i / 8) 0).testBit (i % 8) then 1 else 0) := by
  induction bs with
  | nil =>
      intro i hi
      simp only [List.length_nil, Nat.mul_zero] at hi
      omega
  | cons b t ih =>
      intro i hi
      have hbb : b < 256 := hb b (List.mem_cons_self b t)
      have hbt : ∀ x ∈ t, x < 256 :=
        fun x hx => hb x (List.mem_cons_of_mem b hx)
      have hlb : (byteBits b).length = 8 := byteBits_length b hbb
      simp only [List.map_cons, List.flatten_cons]
      by_cases hc : i < 8
      · rw [List.getElem?_append, if_pos (by rw [hlb]; exact hc)]
        rw [byteBits_lt b hbb, List.getElem?_map, List.getElem?_range hc]
        rw [show i / 8 = 0 from by omega, show i % 8 = i from by omega]
        rfl
      · obtain ⟨j, rfl⟩ : ∃ j, i = j + 8 := ⟨i - 8, by omega⟩
        rw [List.getElem?_append, if_neg (by rw [hlb]; omega)]
        rw [hlb, show j + 8 - 8 = j from by omega]
        rw [ih hbt j (by simp only [List.length_cons] at hi; omega)]
        rw [show (j + 8) / 8 = j / 8 + 1 from by omega,
          show (j + 8) % 8 = j % 8 from by omega, List.getD_cons_succ]

/-- Helper: the bit-unpacking loop over a response whose payload bytes sit
just past a 9-byte header and an already-consumed block `pre`. -/
theorem unpackLoop_eq (hdr : List Nat) (hh : hdr.length = 9) :
    ∀ (bs pre : List Nat),
      unpackLoop ((hdr ++ pre) ++ bs) pre.length bs.length =
        some ((bs.map byteBits).flatten) := by
  intro bs
  induction bs with
  | nil => intro pre; rfl
  | cons b t ih =>
      intro pre
      have hlen : (hdr ++ pre).length = 9 + pre.length := by
        simp [List.length_append, hh]
      have h1 : ((hdr ++ pre) ++ (b :: t))[9 + pre.length]? = some b := by
        rw [List.getElem?_append_right (by omega)]
        simp [hlen]
      have hstep : (hdr ++ pre) ++ (b :: t) = (hdr ++ (pre ++ [b])) ++ t :=
        by simp [List.append_assoc]
      have hres := ih (pre ++ [b])
      rw [← hstep] at hres
      rw [show (pre ++ [b]).length = pre.length + 1 from by simp] at hres
      show unpackLoop _ pre.length (t.length + 1) = _
      simp only [unpackLoop]
      rw [h1, hres]
      rfl

/-- Helper: unfolding of the bit-read response handling on a response whose
nine header bytes are explicit and whose offset-1 byte has a clear high
bit. -/
theorem decode_bits_unfold (count : Nat) (r0 r1 r2 r3 r4 r5 r6 r7 bc : Nat)
    (h1 : r1 &&& 0x80 = 0) (tail : List Nat) :
    read_coils_decode count
        (r0 :: r1 :: r2 :: r3 :: r4 :: r5 :: r6 :: r7 :: bc :: tail) =
      (unpackLoop (r0 :: r1 :: r2 :: r3 :: r4 :: r5 :: r6 :: r7 :: bc ::
          tail) 0 bc).bind
        fun coils => some (PollResult.bits (printLoop coils count)) := by
  simp only [read_coils_decode, List.getElem?_cons_zero,
    List.getElem?_cons_succ, Option.bind_eq_bind, Option.some_bind]
  rw [if_neg (by simp [h1])]
  simp only [bytes_to_dec, List.take_succ_cons, List.take_zero,
    List.drop_succ_cons, List.drop_zero, List.getElem?_cons_zero,
    List.getElem?_cons_succ, Option.bind_eq_bind, Option.some_bind,
    Option.pure_def]

/-- C6: decoding a well-formed matching read response yields exactly
`count` values in ascending address order.  For bit spaces the response
declares `byteCount = ceil(count / 8)` and each payload byte is unpacked
least-significant-bit-first into `byteCount * 8` candidate booleans, the
sequence then truncated to `count` — element `i` is bit `i mod 8` of
payload byte `i div 8`.  For register spaces the response declares
`byteCount = 2 * count` and decoding yields exactly `count` register
values. -/
theorem c6_read_decode_yields_count_values (count : Nat)
    (payload : List Nat) (pairsR : List (Nat × Nat))
    (r0 r1 r2 r3 r4 r5 r6 r7 : Nat)
    (hc1 : 1 ≤ count) (hc2 : count ≤ 2000) (hr1 : r1 &&& 0x80 = 0)
    (hp : payload.length = (count + 7) / 8) (hb : ∀ b ∈ payload, b < 256)
    (hcr1 : 1 ≤ pairsR.length) (hcr2 : pairsR.length ≤ 125) :
    (∃ out, read_coils_decode count
        (r0 :: r1 :: r2 :: r3 :: r4 :: r5 :: r6 :: r7 :: payload.length ::
          payload) = some (PollResult.bits out) ∧
      out.length = count ∧
      ∀ i, i < count → out[i]? =
        some (if (payload.getD (i / 8) 0).testBit (i % 8) then 1 else 0)) ∧
    (∃ out, read_holding_registers_decode pairsR.length
        (r0 :: r1 :: r2 :: r3 :: r4 :: r5 :: r6 :: r7 ::
          (2 * pairsR.length) :: (pairsR.map fun p => [p.1, p.2]).flatten)
      = some (PollResult.regs out) ∧ out.length = pairsR.length) := by
  constructor
  · refine ⟨((payload.map byteBits).flatten).take count, ?_, ?_, ?_⟩
    · rw [decode_bits_unfold count r0 r1 r2 r3 r4 r5 r6 r7 payload.length
        hr1 payload]
      have hu := unpackLoop_eq
        [r0, r1, r2, r3, r4, r5, r6, r7, payload.length] rfl payload []
      rw [List.append_nil] at hu
      simp only [List.cons_append, List.nil_append, List.length_nil] at hu
      rw [hu, Option.some_bind]
      rw [printLoop, if_neg (by omega)]
    · rw [List.length_take, flatten_byteBits_length payload hb]
      omega
    · intro i hi
      rw [List.getElem?_take, if_pos hi]
      exact flatten_byteBits_getElem payload hb i (by omega)
  · refine ⟨pairsR.map fun p =>
        if p.1 * 16 ^ 2 + p.2 < 32768
        then ((p.1 * 16 ^ 2 + p.2 : Nat) : Int)
        else ((p.1 * 16 ^ 2 + p.2 : Nat) : Int) - 65536, ?_, by simp⟩
    rw [decode_regs_unfold pairsR.length r0 r1 r2 r3 r4 r5 r6 r7
      (2 * pairsR.length) hr1]
    have hloop := regLoop_pairs
      [r0, r1, r2, r3, r4, r5, r6, r7, 2 * pairsR.length] rfl pairsR []
    rw [List.append_nil] at hloop
    simp only [List.cons_append, List.nil_append, List.length_nil] at hloop
    rw [show (2 * pairsR.length + 1) / 2 = pairsR.length from by omega,
      hloop, Option.some_bind]
    rw [show pairsR.length = (pairsR.map fun p =>
      if p.1 * 16 ^ 2 + p.2 < 32768
      then ((p.1 * 16 ^ 2 + p.2 : Nat) : Int)
      else ((p.1 * 16 ^ 2 + p.2 : Nat) : Int) - 65536).length from
      (List.length_map _ _).symm]
    rw [printLoop_self]

/-- Witness for C6: two coils from a one-byte payload `0x03`, and one
register from the byte pair 0xFF 0xFF. -/
theorem c6_read_decode_yields_count_values_witness :
    (1 ≤ 2 ∧ 2 ≤ 2000 ∧ (0 : Nat) &&& 0x80 = 0 ∧
      ([3] : List Nat).length = (2 + 7) / 8 ∧
      (∀ b ∈ ([3] : List Nat), b < 256) ∧
      1 ≤ ([((255 : Nat), (255 : Nat))] : List (Nat × Nat)).length ∧
      ([((255 : Nat), (255 : Nat))] : List (Nat × Nat)).length ≤ 125) ∧
    ((∃ out, read_coils_decode 2 [0, 0, 0, 0, 0, 5, 1, 1, 1, 3] =
        some (PollResult.bits out) ∧ out.length = 2 ∧
        ∀ i, i < 2 → out[i]? =
          some (if (([3] : List Nat).getD (i / 8) 0).testBit (i % 8)
            then 1 else 0)) ∧
     (∃ out, read_holding_registers_decode 1
          [0, 0, 0, 0, 0, 5, 1, 1, 2, 255, 255] =
        some (PollResult.regs out) ∧ out.length = 1)) :=
  ⟨⟨by decide, by decide, by decide, by decide, by decide, by decide,
    by decide⟩,
   c6_read_decode_yields_count_values 2 [3] [(255, 255)] 0 0 0 0 0 5 1 1
     (by decide) (by decide) (by decide) (by decide) (by decide)
     (by decide) (by decide)⟩

/-- Witness for C7 at address 5, transaction id 1, unit id 1, value 1. -/
theorem c7_write_single_coil_encoding_witness :
    ((0 : Int) ≤ 5 ∧ (5 : Int) ≤ 65535 ∧ (0 : Int) ≤ 1 ∧
      (1 : Int) ≤ 65535 ∧ (0 : Int) ≤ 1 ∧ (1 : Int) ≤ 255) ∧
    (((1 : Int) = 1 → ∃ pkt, build_packet_writing 5 1 WRITE_SINGLE_COIL 1
        [1] = some pkt ∧ pkt.length = 12 ∧
        pkt.drop 8 =
          [((5 : Int) / 256).toNat, ((5 : Int) % 256).toNat, 0xFF, 0]) ∧
    ((1 : Int) = 0 → ∃ pkt, build_packet_writing 5 1 WRITE_SINGLE_COIL 1
        [1] = some pkt ∧ pkt.length = 12 ∧
        pkt.drop 8 =
          [((5 : Int) / 256).toNat, ((5 : Int) % 256).toNat, 0, 0]) ∧
    ((1 : Int) ≠ 0 → (1 : Int) ≠ 1 →
      build_packet_writing 5 1 WRITE_SINGLE_COIL 1 [1] = none) ∧
    ((build_packet_writing 5 1 WRITE_SINGLE_COIL 1 [1]).map
        fun pkt => pkt.drop 8) = some [0, 5, 0xFF, 0] ∧
    ((build_packet_writing 5 1 WRITE_SINGLE_COIL 1 [0]).map
        fun pkt => pkt.drop 8) = some [0, 5, 0, 0] ∧
    build_packet_writing 5 1 WRITE_SINGLE_COIL 1 [2] = none) :=
  ⟨⟨by decide, by decide, by decide, by decide, by decide, by decide⟩,
   c7_write_single_coil_encoding 5 1 1 1 (by decide) (by decide) (by decide)
     (by decide) (by decide) (by decide)⟩
